import Mathlib

/-!
# Verification of the boiling-fullstack scaffolder core

Shallow embedding of the configuration-validation and
directory-materialization engine of the `boiling-fullstack` CLI:

* `src/utils/validation.ts` — identifier/port validators and secret
  generators (`isValidServiceName`, `isValidPort`, `generatePassword`,
  `generateJwtSecret`);
* `src/utils/template.ts` — the template renderer
  (`renderTemplateFile`, `copyAndRenderDir`, `getAllFiles`);
* `src/scaffolder.ts` — the orchestrating `scaffold` function with its
  pre-existing-directory guard and rollback-on-failure semantics.

The filesystem is modelled as explicit state: a list of directories and
a list of (path, content) files, with paths as lists of slash-free
components.  Effectful collaborators (the EJS engine, `git init`) are
parameters of the embedding: an arbitrary rendering function
`String → Data → Except String String` and a boolean outcome for
`git init`.
-/

namespace Boiling

/-! ## Validators (`src/utils/validation.ts`) -/

/-- Result type of the validators.  The source returns `true | string`
(`ValidationResult` in `types.ts`); we use an explicit sum. -/
inductive ValidationResult where
  | valid : ValidationResult
  | invalid (reason : String) : ValidationResult
deriving DecidableEq, Repr

/-- `'a' ≤ c ≤ 'z'`, the character class `[a-z]`. -/
def isLowerAlpha (c : Char) : Bool :=
  'a' ≤ c && c ≤ 'z'

/-- The character class `[a-z0-9]`. -/
def isLowerAlnum (c : Char) : Bool :=
  isLowerAlpha c || ('0' ≤ c && c ≤ '9')

/-- Acceptor for the tail language of the kebab-case regex
`^[a-z][a-z0-9]*(?:-[a-z0-9]+)*$`: after the first letter, the rest is
alphanumerics and dashes where every dash is followed by at least one
alphanumeric (so no trailing dash and no two consecutive dashes). -/
def kebabRun : List Char → Bool
  | [] => true
  | '-' :: [] => false
  | '-' :: d :: rest => isLowerAlnum d && kebabRun rest
  | c :: rest => isLowerAlnum c && kebabRun rest

/-- `KEBAB_CASE_REGEX.test name` from `validation.ts`:
`/^[a-z][a-z0-9]*(?:-[a-z0-9]+)*$/`. -/
def kebabCase (s : String) : Bool :=
  match s.toList with
  | [] => false
  | c :: rest => isLowerAlpha c && kebabRun rest

/-- `RESERVED_SERVICE_NAMES` from `validation.ts`. -/
def RESERVED_SERVICE_NAMES : List String :=
  ["backend", "db", "pgadmin", "adminer"]

/-- `isValidServiceName(name, usedNames)` from `validation.ts`
(`src/cli.ts` carries the same function with English messages, which we
use here; only the shape of the result matters). -/
def isValidServiceName (name : String) (usedNames : List String) :
    ValidationResult :=
  if name = "" then .invalid "Service name is required"
  else if !kebabCase name then
    .invalid "Name must be in kebab-case (e.g. my-frontend)"
  else if name ∈ RESERVED_SERVICE_NAMES then
    .invalid ("Name \"" ++ name ++ "\" is reserved")
  else if name ∈ usedNames then
    .invalid ("Name \"" ++ name ++ "\" is already taken")
  else .valid

/-- `isValidPort(port, usedPorts)` from `validation.ts`.  JavaScript
ports are floating-point numbers on which `Number.isInteger` is tested
first; we model the numeric argument as a rational, where
`Number.isInteger port` becomes `port.den = 1`. -/
def isValidPort (port : ℚ) (usedPorts : List ℚ) : ValidationResult :=
  if port.den ≠ 1 then .invalid "Port must be an integer"
  else if port < 1024 ∨ port > 65535 then
    .invalid "Port must be between 1024 and 65535"
  else if port = 5432 then .invalid "Port 5432 is reserved for PostgreSQL"
  else if port ∈ usedPorts then
    .invalid ("Port " ++ toString port ++ " is already in use")
  else .valid

/-- The incremental acceptance loop of the configuration collector
(`src/cli.ts`): each candidate service name is validated against the
accumulator of previously accepted names and then appended to it. -/
def allNamesAccepted (acc : List String) : List String → Bool
  | [] => true
  | n :: rest =>
      (isValidServiceName n acc == .valid) && allNamesAccepted (acc ++ [n]) rest

/-! ## Secret generators (`src/utils/validation.ts`) -/

/-- The 64-character `base64url` alphabet used by Node's
`Buffer.toString('base64url')`. -/
def base64urlAlphabet : List Char :=
  "ABCDEFGHIJKLMNOPQRSTUVWXYZabcdefghijklmnopqrstuvwxyz0123456789-_".toList

/-- Character of a 6-bit value in the base64url alphabet. -/
def base64urlChar (v : Nat) : Char :=
  base64urlAlphabet.getD (v % 64) 'A'

/-- Node's unpadded base64url encoding of a byte sequence: groups of
three bytes give four characters; a final group of one byte gives two
characters, of two bytes three characters; no `=` padding. -/
def base64urlEncode : List Nat → List Char
  | [] => []
  | [b1] =>
      [base64urlChar (b1 / 4), base64urlChar (b1 % 4 * 16)]
  | [b1, b2] =>
      [base64urlChar (b1 / 4), base64urlChar (b1 % 4 * 16 + b2 / 16),
       base64urlChar (b2 % 16 * 4)]
  | b1 :: b2 :: b3 :: rest =>
      base64urlChar (b1 / 4) :: base64urlChar (b1 % 4 * 16 + b2 / 16) ::
      base64urlChar (b2 % 16 * 4 + b3 / 64) :: base64urlChar (b3 % 64) ::
      base64urlEncode rest

/-- `generatePassword(length = 16)` from `validation.ts`:
`crypto.randomBytes(length).toString('base64url').slice(0, length)`.
The entropy source is modelled by passing the byte sequence returned by
`crypto.randomBytes(length)` explicitly. -/
def generatePassword (bytes : List Nat) (length : Nat := 16) : String :=
  String.mk ((base64urlEncode bytes).take length)

/-- Hex string of one byte (`Buffer.toString('hex')` is lowercase and
always two digits per byte). -/
def hexByte (b : Nat) : List Char :=
  [(Nat.digitChar (b / 16 % 16)), (Nat.digitChar (b % 16))]

/-- Lowercase hex encoding of a byte sequence. -/
def hexEncode (bytes : List Nat) : List Char :=
  bytes.flatMap hexByte

/-- `generateJwtSecret(length = 32)` from `validation.ts`:
`crypto.randomBytes(length).toString('hex')`.  As with
`generatePassword` the random bytes are passed explicitly; the `length`
argument of the source is the length of that byte list. -/
def generateJwtSecret (bytes : List Nat) : String :=
  String.mk (hexEncode bytes)

/-! ## Filesystem model

Paths are lists of slash-free components; a filesystem state is a list
of directories plus a list of (path, contents) files.  A path "exists"
(`fs.pathExists` of `fs-extra`) when it is a prefix of some recorded
directory or file path, so ancestors of recorded entries exist too. -/

/-- A filesystem path, as its slash-free components. -/
abbrev Path := List String

/-- Filesystem state: explicitly created directories and regular files
with their contents. -/
structure FS where
  dirs : List Path
  files : List (Path × String)
deriving DecidableEq, Repr

/-- `q` is `p` itself or lies underneath the directory `p`. -/
def isUnder (p q : Path) : Bool := p.isPrefixOf q

/-- `fs.pathExists(p)`: some recorded entry is `p` or lies under `p`. -/
def pathExists (fs : FS) (p : Path) : Bool :=
  fs.dirs.any (fun d => isUnder p d) ||
    fs.files.any (fun f => isUnder p f.1)

/-- `fs.remove(p)`: recursively delete `p` — every entry at or under
`p` disappears. -/
def removePath (p : Path) (fs : FS) : FS :=
  { dirs := fs.dirs.filter (fun d => !isUnder p d),
    files := fs.files.filter (fun f => !isUnder p f.1) }

/-- `fs.ensureDir(p)`: record the directory `p` (ancestors exist via the
prefix-based `pathExists`). -/
def ensureDir (p : Path) (fs : FS) : FS :=
  { fs with dirs := p :: fs.dirs }

/-- `fs.writeFile(p, c)`: create or overwrite the file at `p`. -/
def writeFile (p : Path) (c : String) (fs : FS) : FS :=
  { fs with files := (p, c) :: fs.files.filter (fun f => f.1 ≠ p) }

/-- `fs.readFile(p)`: contents of the file at `p`, if present. -/
def readFile (fs : FS) (p : Path) : Option String :=
  (fs.files.find? (fun f => f.1 = p)).map (fun f => f.2)

/-- `path.dirname`. -/
def dirname (p : Path) : Path := p.dropLast

/-! ## Template renderer (`src/utils/template.ts`) -/

/-- The data contexts `scaffold` passes to `copyAndRenderDir`:
`{name, styling, useShadcn}` per frontend, `{projectName, backendPort}`
for the backend, and the whole `ProjectConfig` spread for the root
files. -/
inductive Data where
  | frontendCtx (name styling : String) (useShadcn : Bool)
  | backendCtx (projectName : String) (backendPort : Int)
  | rootCtx (projectName : String)
      (frontendNames : List String) (backendPort : Int)
      (dbName dbUser dbPassword jwtSecret : String)
deriving DecidableEq, Repr

/-- Outcome of `ejs.render`: the rendered text, or a thrown
`TemplateError` message.  The engine is pluggable, so the embedding
takes it as a parameter. -/
abbrev RenderFn := String → Data → Except String String

/-- Errors thrown inside a scaffolding run. -/
inductive ScaffoldError where
  | directoryExists
  | templateError (msg : String)
  | fsError
  | commandFailed
deriving DecidableEq, Repr

/-- `s.endsWith(suffix)` over the character list (kernel-computable;
`String.endsWith` of core Lean does not reduce).  For ASCII suffixes
this is exactly JavaScript's `endsWith`. -/
def strEndsWith (s suffix : String) : Bool :=
  suffix.data.isSuffixOf s.data

/-- `s.slice(0, -n)` of JavaScript over the character list: drop the
last `n` characters. -/
def strDropRight (s : String) (n : Nat) : String :=
  String.mk (s.data.take (s.data.length - n))

/-- Apply `f` to the last component of a path. -/
def mapLast (f : String → String) : Path → Path
  | [] => []
  | [c] => [f c]
  | c :: rest => c :: mapLast f rest

/-- `relativePath.endsWith('.ejs')` from `copyAndRenderDir`.  On the
joined path string this holds exactly when the last slash-free
component ends with `.ejs`. -/
def isEjsPath (rel : Path) : Bool :=
  match rel.getLast? with
  | some c => strEndsWith c ".ejs"
  | none => false

/-- The output-name computation of `copyAndRenderDir`: strip a trailing
`.ejs` marker (`outputName.slice(0, -4)`), then apply
`outputName.replace(/(^|\/)gitignore$/, '$1.gitignore')`.  On slash-free
components the regex matches exactly when the last component is the
whole word `gitignore`, so both transformations act on the last
component. -/
def computeOutputRel (rel : Path) : Path :=
  let rel1 :=
    if isEjsPath rel then mapLast (fun c => strDropRight c 4) rel else rel
  mapLast (fun c => if c = "gitignore" then ".gitignore" else c) rel1

/-- `renderTemplateFile(templatePath, outputPath, data)`: read the
template, render it, `ensureDir` the parent of the output path, write
the result.  Returns the updated state and, on failure, the error;
failure leaves the state as it was (the write is the last step). -/
def renderTemplateFile (render : RenderFn) (templatePath outputPath : Path)
    (data : Data) (fs : FS) : FS × Option ScaffoldError :=
  match readFile fs templatePath with
  | none => (fs, some .fsError)
  | some template =>
    match render template data with
    | .error msg => (fs, some (.templateError msg))
    | .ok rendered =>
        (writeFile outputPath rendered (ensureDir (dirname outputPath) fs), none)

/-- `getAllFiles(dir)`: every file strictly under `dir`, in the order
the state lists them (a deterministic function of the state, as the
recursive `readdir` walk of the source is). -/
def getAllFiles (fs : FS) (dir : Path) : List Path :=
  (fs.files.map (fun f => f.1)).filter
    (fun p => isUnder dir p && dir.length < p.length)

/-- The loop body of `copyAndRenderDir` for one template file
`filePath`: compute the relative path and the output name, then either
render (for `.ejs` files) or copy byte-for-byte. -/
def processFile (render : RenderFn) (templateDir outputDir : Path)
    (data : Data) (filePath : Path) (fs : FS) : FS × Option ScaffoldError :=
  let rel := filePath.drop templateDir.length
  let outputPath := outputDir ++ computeOutputRel rel
  if isEjsPath rel then
    renderTemplateFile render filePath outputPath data fs
  else
    match readFile fs filePath with
    | none => (fs, some .fsError)
    | some contents =>
        (writeFile outputPath contents (ensureDir (dirname outputPath) fs), none)

/-- The `for`-loop of `copyAndRenderDir`: process the files in order,
stopping at the first failure. -/
def processFiles (render : RenderFn) (templateDir outputDir : Path)
    (data : Data) : List Path → FS → FS × Option ScaffoldError
  | [], fs => (fs, none)
  | p :: rest, fs =>
    match processFile render templateDir outputDir data p fs with
    | (fs1, some e) => (fs1, some e)
    | (fs1, none) => processFiles render templateDir outputDir data rest fs1

/-- `copyAndRenderDir(templateDir, outputDir, data)`: enumerate the
template files once, then process each.  Reading a missing template
directory throws in the source (`fs.readdir`), modelled as `fsError`. -/
def copyAndRenderDir (render : RenderFn) (templateDir outputDir : Path)
    (data : Data) (fs : FS) : FS × Option ScaffoldError :=
  if pathExists fs templateDir then
    processFiles render templateDir outputDir data (getAllFiles fs templateDir) fs
  else (fs, some .fsError)

/-! ## Scaffolder (`src/scaffolder.ts`) -/

/-- `FrontendConfig` from `types.ts`.  `scaffolder.ts` additionally
reads `fe.useShadcn`; absent from `types.ts`, it is `undefined`
(falsy) there, covered by the boolean field. -/
structure FrontendConfig where
  name : String
  framework : String
  styling : String
  port : Int
  useShadcn : Bool
deriving DecidableEq, Repr

/-- `DbAdminConfig` from `types.ts`. -/
structure DbAdminConfig where
  tool : String
  port : Int
  email : Option String
  password : Option String
deriving DecidableEq, Repr

/-- `ProjectConfig` from `types.ts`. -/
structure ProjectConfig where
  projectName : String
  frontends : List FrontendConfig
  backendPort : Int
  dbName : String
  dbUser : String
  dbPassword : String
  jwtSecret : Option String
  dbAdmin : Option DbAdminConfig
deriving DecidableEq, Repr

/-- `CliOptions` from `types.ts`. -/
structure CliOptions where
  force : Bool
  verbose : Bool
deriving DecidableEq, Repr

/-- The root of the installed package's template tree
(`path.resolve(__dirname, '..', 'templates')`).  Its first component is
distinct from the invocation directory's marker component, as the
package directory and the working directory are distinct. -/
def templatesDir : Path := ["__pkg", "templates"]

/-- `path.resolve(process.cwd(), config.projectName)`. -/
def projectDirOf (config : ProjectConfig) : Path :=
  ["__cwd", config.projectName]

/-- The root-files data context: `{ ...config }`. -/
def rootCtxOf (config : ProjectConfig) : Data :=
  .rootCtx config.projectName (config.frontends.map (fun fe => fe.name))
    config.backendPort config.dbName config.dbUser config.dbPassword
    (config.jwtSecret.getD "")

/-- The per-frontend data context:
`{ name: fe.name, styling: fe.styling, useShadcn: fe.useShadcn }`. -/
def frontendCtxOf (fe : FrontendConfig) : Data :=
  .frontendCtx fe.name fe.styling fe.useShadcn

/-- One observable effectful step of a scaffolding run: a
`copyAndRenderDir` call, or the `gitInit` call. -/
inductive Event where
  | renderDir (templateDir outputDir : Path) (data : Data)
  | gitInit (cwd : Path)
deriving DecidableEq, Repr

/-- The frontends loop of `scaffold` (steps 4 of the spec): for each
frontend in declaration order, render the framework's template subtree
into `projectDir/fe.name`; for a Vue frontend with `useShadcn`, also
render the `vue-shadcn` overlay into the same directory.  Returns the
state, the trace of steps performed, and the first error. -/
def renderFrontends (render : RenderFn) (projectDir : Path) :
    List FrontendConfig → FS → FS × List Event × Option ScaffoldError
  | [], fs => (fs, [], none)
  | fe :: rest, fs =>
    let tdir := templatesDir ++ ["frontend", fe.framework]
    let odir := projectDir ++ [fe.name]
    let ev1 := Event.renderDir tdir odir (frontendCtxOf fe)
    match copyAndRenderDir render tdir odir (frontendCtxOf fe) fs with
    | (fs1, some e) => (fs1, [ev1], some e)
    | (fs1, none) =>
      if fe.framework = "vue" && fe.useShadcn then
        let tdir2 := templatesDir ++ ["frontend", "vue-shadcn"]
        let ev2 := Event.renderDir tdir2 odir (frontendCtxOf fe)
        match copyAndRenderDir render tdir2 odir (frontendCtxOf fe) fs1 with
        | (fs2, some e) => (fs2, [ev1, ev2], some e)
        | (fs2, none) =>
          match renderFrontends render projectDir rest fs2 with
          | (fs3, tr, e3) => (fs3, ev1 :: ev2 :: tr, e3)
      else
        match renderFrontends render projectDir rest fs1 with
        | (fs3, tr, e3) => (fs3, ev1 :: tr, e3)

/-- The `try` block of `scaffold` (steps 3–7): create the output root,
render every frontend, render the backend subtree into
`projectDir/backend`, render the root template set into `projectDir`,
then run `git init` there.  `gitOk` is the outcome of the external
`git init` process. -/
def scaffoldSteps (render : RenderFn) (gitOk : Bool)
    (config : ProjectConfig) (fs : FS) :
    FS × List Event × Option ScaffoldError :=
  let projectDir := projectDirOf config
  let fs0 := ensureDir projectDir fs
  match renderFrontends render projectDir config.frontends fs0 with
  | (fs1, tr, some e) => (fs1, tr, some e)
  | (fs1, tr, none) =>
    let btdir := templatesDir ++ ["backend", "nestjs"]
    let bodir := projectDir ++ ["backend"]
    let bctx := Data.backendCtx config.projectName config.backendPort
    let bev := Event.renderDir btdir bodir bctx
    match copyAndRenderDir render btdir bodir bctx fs1 with
    | (fs2, some e) => (fs2, tr ++ [bev], some e)
    | (fs2, none) =>
      let rtdir := templatesDir ++ ["root"]
      let rev := Event.renderDir rtdir projectDir (rootCtxOf config)
      match copyAndRenderDir render rtdir projectDir (rootCtxOf config) fs2 with
      | (fs3, some e) => (fs3, tr ++ [bev, rev], some e)
      | (fs3, none) =>
        if gitOk then
          (fs3, tr ++ [bev, rev, Event.gitInit projectDir], none)
        else
          (fs3, tr ++ [bev, rev, Event.gitInit projectDir],
            some .commandFailed)

/-- The `try … catch` of `scaffold`: on any failure of steps 3–7,
delete the entire output root (when it exists) before re-raising. -/
def scaffoldTry (render : RenderFn) (gitOk : Bool)
    (config : ProjectConfig) (fs : FS) :
    FS × List Event × Option ScaffoldError :=
  match scaffoldSteps render gitOk config fs with
  | (fs1, tr, none) => (fs1, tr, none)
  | (fs1, tr, some e) =>
    let projectDir := projectDirOf config
    if pathExists fs1 projectDir then
      (removePath projectDir fs1, tr, some e)
    else (fs1, tr, some e)

/-- `scaffold(config, options)` from `src/scaffolder.ts`: guard against
a pre-existing output root (`--force` removes it, otherwise
`DirectoryExistsError` with no mutation), then run steps 3–7 under the
rollback handler. -/
def scaffold (render : RenderFn) (gitOk : Bool) (config : ProjectConfig)
    (options : CliOptions) (fs : FS) :
    FS × List Event × Option ScaffoldError :=
  let projectDir := projectDirOf config
  if pathExists fs projectDir then
    if options.force then
      scaffoldTry render gitOk config (removePath projectDir fs)
    else (fs, [], some .directoryExists)
  else scaffoldTry render gitOk config fs

/-- The step sequence the spec prescribes for a successful run: the
frontends in declaration order (with the optional shadcn overlay), the
backend subtree, the root set, and `git init` last. -/
def expectedTrace (config : ProjectConfig) : List Event :=
  let projectDir := projectDirOf config
  (config.frontends.flatMap (fun fe =>
     let tdir := templatesDir ++ ["frontend", fe.framework]
     let odir := projectDir ++ [fe.name]
     Event.renderDir tdir odir (frontendCtxOf fe) ::
       (if fe.framework = "vue" && fe.useShadcn then
         [Event.renderDir (templatesDir ++ ["frontend", "vue-shadcn"]) odir
           (frontendCtxOf fe)]
        else []))) ++
  [Event.renderDir (templatesDir ++ ["backend", "nestjs"])
     (projectDir ++ ["backend"])
     (Data.backendCtx config.projectName config.backendPort),
   Event.renderDir (templatesDir ++ ["root"]) projectDir (rootCtxOf config),
   Event.gitInit projectDir]

/-! ## Helper lemmas: validators -/

/-- Characterization of `isValidPort` acceptance. -/
theorem isValidPort_valid_iff (port : ℚ) (usedPorts : List ℚ) :
    isValidPort port usedPorts = .valid ↔
      (port.den = 1 ∧ 1024 ≤ port ∧ port ≤ 65535 ∧ port ≠ 5432 ∧
        port ∉ usedPorts) := by
  unfold isValidPort
  split_ifs with h1 h2 h3 h4
  · exact iff_of_false (by simp) (fun h => h1 h.1)
  · refine iff_of_false (by simp) (fun h => ?_)
    rcases h2 with h2 | h2
    · exact absurd h.2.1 (not_le.mpr h2)
    · exact absurd h.2.2.1 (not_le.mpr h2)
  · exact iff_of_false (by simp) (fun h => h.2.2.2.1 h3)
  · exact iff_of_false (by simp) (fun h => h.2.2.2.2 h4)
  · push_neg at h2
    exact iff_of_true rfl
      ⟨not_not.mp h1, h2.1, h2.2, h3, h4⟩

/-- Characterization of `isValidServiceName` acceptance. -/
theorem isValidServiceName_valid_iff (name : String) (usedNames : List String) :
    isValidServiceName name usedNames = .valid ↔
      (name ≠ "" ∧ kebabCase name = true ∧
        name ∉ RESERVED_SERVICE_NAMES ∧ name ∉ usedNames) := by
  unfold isValidServiceName
  split_ifs with h1 h2 h3 h4
  · exact iff_of_false (by simp) (fun h => h.1 h1)
  · refine iff_of_false (by simp) (fun h => ?_)
    simp [h.2.1] at h2
  · exact iff_of_false (by simp) (fun h => h.2.2.1 h3)
  · exact iff_of_false (by simp) (fun h => h.2.2.2 h4)
  · simp only [Bool.not_eq_true', Bool.not_eq_false] at h2
    exact iff_of_true rfl ⟨h1, h2, h3, h4⟩

/-- Soundness of the incremental acceptance loop: every name accepted
against the growing accumulator is fresh, unreserved, and distinct from
the other accepted names. -/
theorem allNamesAccepted_sound :
    ∀ (names acc : List String), allNamesAccepted acc names = true →
      names.Nodup ∧ (∀ n ∈ names, n ∉ RESERVED_SERVICE_NAMES) ∧
        (∀ n ∈ names, n ∉ acc) := by
  intro names
  induction names with
  | nil => exact fun acc _ => ⟨List.nodup_nil, by simp, by simp⟩
  | cons n rest ih =>
    intro acc h
    rw [allNamesAccepted, Bool.and_eq_true, beq_iff_eq] at h
    obtain ⟨hvalid, hrest⟩ := h
    rw [isValidServiceName_valid_iff] at hvalid
    obtain ⟨hrestNodup, hrestRes, hrestAcc⟩ := ih (acc ++ [n]) hrest
    refine ⟨List.nodup_cons.mpr ⟨?_, hrestNodup⟩, ?_, ?_⟩
    · intro hmem
      exact hrestAcc n hmem (by simp)
    · intro m hm
      rcases List.mem_cons.mp hm with rfl | hm
      · exact hvalid.2.2.1
      · exact hrestRes m hm
    · intro m hm
      rcases List.mem_cons.mp hm with rfl | hm
      · exact hvalid.2.2.2
      · exact fun hma => hrestAcc m hm (List.mem_append_left _ hma)

/-! ## Claim theorems: validators -/

/-- C4: `validatePort` rejects non-integers, ports outside
[1024, 65535], the reserved database port 5432, and ports already in
`usedPorts`, and accepts everything else; in particular
`validatePort(5432, [])`, `validatePort(3000, [3000])` and
`validatePort(80, [])` are rejected while `validatePort(3000, [])` is
accepted.  (The function is a pure Lean function of its arguments, so
it has no side effects.) -/
theorem isValidPort_spec :
    (∀ (port : ℚ) (usedPorts : List ℚ),
        isValidPort port usedPorts = .valid ↔
          (port.den = 1 ∧ 1024 ≤ port ∧ port ≤ 65535 ∧ port ≠ 5432 ∧
            port ∉ usedPorts)) ∧
    isValidPort 5432 [] ≠ .valid ∧
    isValidPort 3000 [3000] ≠ .valid ∧
    isValidPort 80 [] ≠ .valid ∧
    isValidPort 3000 [] = .valid :=
  ⟨isValidPort_valid_iff, by decide, by decide, by decide, by decide⟩

/-- C4 witness: the characterization applied at the concrete accepted
input `validatePort(3000, [])`. -/
theorem isValidPort_spec_witness : isValidPort 3000 [] = .valid :=
  (isValidPort_spec.1 3000 []).mpr (by norm_num)

/-- C5: `validateServiceName` rejects the empty name, non-kebab-case
names, the reserved set {backend, db, pgadmin, adminer}, and names
already in `existingNames`, and accepts everything else; consequently a
sequence of names each accepted against the accumulator of its
predecessors contains no duplicates and no reserved name. -/
theorem isValidServiceName_spec :
    (∀ (name : String) (existingNames : List String),
        isValidServiceName name existingNames = .valid ↔
          (name ≠ "" ∧ kebabCase name = true ∧
            name ∉ RESERVED_SERVICE_NAMES ∧ name ∉ existingNames)) ∧
    (∀ (names acc : List String), allNamesAccepted acc names = true →
        names.Nodup ∧ (∀ n ∈ names, n ∉ RESERVED_SERVICE_NAMES) ∧
          (∀ n ∈ names, n ∉ acc)) :=
  ⟨isValidServiceName_valid_iff, allNamesAccepted_sound⟩

/-- C5 witness: two concrete frontend names accepted in sequence
against the collector's initial accumulator are distinct, unreserved
and fresh. -/
theorem isValidServiceName_spec_witness :
    allNamesAccepted ["backend", "db"] ["web", "admin"] = true ∧
      (["web", "admin"].Nodup ∧
        (∀ n ∈ ["web", "admin"], n ∉ RESERVED_SERVICE_NAMES) ∧
        (∀ n ∈ ["web", "admin"], n ∉ ["backend", "db"])) :=
  ⟨by decide, isValidServiceName_spec.2 ["web", "admin"] ["backend", "db"]
    (by decide)⟩

/-! ## Helper lemmas: secret generators -/

/-- Length of the unpadded base64url encoding. -/
theorem base64urlEncode_length (bytes : List Nat) :
    (base64urlEncode bytes).length = (4 * bytes.length + 2) / 3 := by
  induction bytes using base64urlEncode.induct with
  | case1 => simp [base64urlEncode]
  | case2 b1 => simp [base64urlEncode]
  | case3 b1 b2 => simp [base64urlEncode]
  | case4 b1 b2 b3 rest ih =>
    simp only [base64urlEncode, List.length_cons, ih]
    omega

/-- The base64url encoding is at least as long as its input. -/
theorem length_le_base64urlEncode_length (bytes : List Nat) :
    bytes.length ≤ (base64urlEncode bytes).length := by
  rw [base64urlEncode_length]
  omega

/-- Every character the encoder emits is in the base64url alphabet. -/
theorem base64urlChar_mem (v : Nat) : base64urlChar v ∈ base64urlAlphabet := by
  unfold base64urlChar
  have hlt : v % 64 < base64urlAlphabet.length := by
    have : base64urlAlphabet.length = 64 := by decide
    omega
  rw [List.getD_eq_getElem _ _ hlt]
  exact List.getElem_mem hlt

/-- Every character of a base64url encoding is in the alphabet. -/
theorem base64urlEncode_mem (bytes : List Nat) :
    ∀ c ∈ base64urlEncode bytes, c ∈ base64urlAlphabet := by
  induction bytes using base64urlEncode.induct with
  | case1 => simp [base64urlEncode]
  | case2 b1 =>
    simp only [base64urlEncode, List.mem_cons, List.not_mem_nil, or_false]
    rintro c (rfl | rfl) <;> exact base64urlChar_mem _
  | case3 b1 b2 =>
    simp only [base64urlEncode, List.mem_cons, List.not_mem_nil, or_false]
    rintro c (rfl | rfl | rfl) <;> exact base64urlChar_mem _
  | case4 b1 b2 b3 rest ih =>
    simp only [base64urlEncode, List.mem_cons]
    rintro c (rfl | rfl | rfl | rfl | hc)
    · exact base64urlChar_mem _
    · exact base64urlChar_mem _
    · exact base64urlChar_mem _
    · exact base64urlChar_mem _
    · exact ih c hc

/-- The hex encoding of a byte list has twice its length. -/
theorem hexEncode_length (bytes : List Nat) :
    (hexEncode bytes).length = 2 * bytes.length := by
  induction bytes with
  | nil => rfl
  | cons b rest ih =>
    simp only [hexEncode, List.flatMap_cons, List.length_append] at ih ⊢
    simp [hexByte, ih]
    omega

/-! ## Claim theorem: secret generators (C8) -/

/-- C8: for positive `n` and an `n`-byte entropy sample,
`generatePassword` returns exactly `n` characters, all from the URL-safe
base64url alphabet, and its `length` argument defaults to 16;
`generateJwtSecret` hex-encodes its `k` random bytes into exactly `2·k`
characters, with `k = 32` (64 characters) as the default. -/
theorem secret_generators_spec :
    (∀ (bytes : List Nat) (n : Nat), bytes.length = n → 0 < n →
        (generatePassword bytes n).length = n ∧
          ∀ c ∈ (generatePassword bytes n).data, c ∈ base64urlAlphabet) ∧
    (∀ bytes : List Nat, generatePassword bytes = generatePassword bytes 16) ∧
    (∀ (bytes : List Nat) (k : Nat), bytes.length = k →
        (generateJwtSecret bytes).length = 2 * k) ∧
    (∀ bytes : List Nat, bytes.length = 32 →
        (generateJwtSecret bytes).length = 64) := by
  refine ⟨fun bytes n hlen _ => ⟨?_, ?_⟩, fun _ => rfl, ?_, ?_⟩
  · show ((base64urlEncode bytes).take n).length = n
    rw [List.length_take]
    have := length_le_base64urlEncode_length bytes
    omega
  · intro c hc
    exact base64urlEncode_mem bytes c (List.mem_of_mem_take hc)
  · intro bytes k hk
    show (hexEncode bytes).length = 2 * k
    rw [hexEncode_length, hk]
  · intro bytes hk
    show (hexEncode bytes).length = 64
    rw [hexEncode_length, hk]

/-- C8 witness: a concrete 16-byte entropy sample gives a 16-character
URL-safe password, and a concrete 32-byte sample gives a 64-character
hex secret. -/
theorem secret_generators_spec_witness :
    ((generatePassword (List.replicate 16 7) 16).length = 16 ∧
      ∀ c ∈ (generatePassword (List.replicate 16 7) 16).data,
        c ∈ base64urlAlphabet) ∧
    (generateJwtSecret (List.replicate 32 7)).length = 2 * 32 :=
  ⟨secret_generators_spec.1 (List.replicate 16 7) 16 (by decide) (by decide),
   secret_generators_spec.2.2.1 (List.replicate 32 7) 32 (by decide)⟩

/-! ## Helper lemmas: paths and output names -/

theorem mapLast_concat (f : String → String) (ds : List String) (c : String) :
    mapLast f (ds ++ [c]) = ds ++ [f c] := by
  induction ds with
  | nil => rfl
  | cons d ds ih =>
    cases ds with
    | nil => rfl
    | cons e es => simpa [mapLast] using ih

theorem isEjsPath_concat (ds : List String) (c : String) :
    isEjsPath (ds ++ [c]) = strEndsWith c ".ejs" := by
  unfold isEjsPath
  rw [List.getLast?_concat]

/-- Acting of `computeOutputRel` on a path with last component `c`
carrying the renderable marker. -/
theorem computeOutputRel_concat_ejs (ds : List String) (c : String)
    (h : strEndsWith c ".ejs" = true) :
    computeOutputRel (ds ++ [c]) =
      ds ++ [if strDropRight c 4 = "gitignore" then ".gitignore"
             else strDropRight c 4] := by
  unfold computeOutputRel
  rw [isEjsPath_concat, h]
  simp only [if_true, mapLast_concat]

/-- Acting of `computeOutputRel` on a path with an unmarked last
component `c`. -/
theorem computeOutputRel_concat_static (ds : List String) (c : String)
    (h : strEndsWith c ".ejs" = false) :
    computeOutputRel (ds ++ [c]) =
      ds ++ [if c = "gitignore" then ".gitignore" else c] := by
  unfold computeOutputRel
  rw [isEjsPath_concat, h]
  simp only [Bool.false_eq_true, if_false, mapLast_concat]

/-! ## Helper lemmas: relativized output trees -/

/-- The files under `d`, with their paths relativized to `d`. -/
def relTree (d : Path) (fs : FS) : List (Path × String) :=
  (fs.files.filter (fun f => isUnder d f.1)).map
    (fun f => (f.1.drop d.length, f.2))

theorem isUnder_append (d out : Path) : isUnder d (d ++ out) = true :=
  List.isPrefixOf_iff_prefix.mpr (List.prefix_append d out)

theorem isUnder_refl (d : Path) : isUnder d d = true := by
  simpa using isUnder_append d []

theorem isUnder_trans {a b c : Path} (h1 : isUnder a b = true)
    (h2 : isUnder b c = true) : isUnder a c = true :=
  List.isPrefixOf_iff_prefix.mpr
    ((List.isPrefixOf_iff_prefix.mp h1).trans (List.isPrefixOf_iff_prefix.mp h2))

/-- A path under `d` is `d` followed by its relativization. -/
theorem eq_append_drop_of_isUnder {d p : Path} (h : isUnder d p = true) :
    d ++ p.drop d.length = p := by
  obtain ⟨t, rfl⟩ := List.isPrefixOf_iff_prefix.mp h
  rw [List.drop_left]

theorem relTree_ensureDir (d q : Path) (fs : FS) :
    relTree d (ensureDir q fs) = relTree d fs := rfl

/-- Filtering out the overwritten path commutes with relativization
under `d`. -/
theorem filter_write_aux (d out : Path) :
    ∀ l : List (Path × String),
      ((l.filter (fun f => f.1 ≠ d ++ out)).filter
          (fun f => isUnder d f.1)).map (fun f => (f.1.drop d.length, f.2))
        = ((l.filter (fun f => isUnder d f.1)).map
            (fun f => (f.1.drop d.length, f.2))).filter (fun f => f.1 ≠ out)
  | [] => rfl
  | f :: l => by
    have ih := filter_write_aux d out l
    by_cases hu : isUnder d f.1 = true
    · have hf : d ++ f.1.drop d.length = f.1 := eq_append_drop_of_isUnder hu
      have hcons : ∀ m : List (Path × String),
          List.filter (fun f => isUnder d f.1) (f :: m)
            = f :: List.filter (fun f => isUnder d f.1) m :=
        fun m => List.filter_cons_of_pos hu
      by_cases he : f.1.drop d.length = out
      · have hfe : f.1 = d ++ out := by rw [← hf, he]
        rw [List.filter_cons_of_neg (by simp [hfe]), hcons, List.map_cons,
          List.filter_cons_of_neg (by simp [he])]
        exact ih
      · have hne : f.1 ≠ d ++ out := fun hx => he (by rw [hx, List.drop_left])
        rw [List.filter_cons_of_pos (by simp [hne]), hcons, List.map_cons,
          hcons, List.map_cons, List.filter_cons_of_pos (by simp [he])]
        exact congrArg _ ih
    · have hu' : isUnder d f.1 = false := by simpa using hu
      have hne : f.1 ≠ d ++ out := fun hx => by
        rw [hx, isUnder_append] at hu'
        cases hu'
      rw [List.filter_cons_of_pos (by simp [hne]),
        List.filter_cons_of_neg (by simp [hu']),
        List.filter_cons_of_neg (by simp [hu'])]
      exact ih

/-- Writing a file under `d` prepends its relativized entry and shadows
any previous entry at the same relative path. -/
theorem relTree_writeFile (d out : Path) (c : String) (fs : FS) :
    relTree d (writeFile (d ++ out) c fs) =
      (out, c) :: (relTree d fs).filter (fun f => f.1 ≠ out) := by
  unfold relTree writeFile
  simp only [List.filter_cons, isUnder_append, if_true, List.map_cons,
    List.drop_left]
  rw [filter_write_aux]

/-- A state with no files under `d` has an empty relativized tree. -/
theorem relTree_eq_nil (d : Path) (fs : FS)
    (h : ∀ f ∈ fs.files, isUnder d f.1 = false) :
    relTree d fs = [] := by
  unfold relTree
  rw [List.filter_eq_nil_iff.mpr fun f hf => by simp [h f hf]]
  rfl

theorem readFile_ensureDir (q : Path) (fs : FS) (p : Path) :
    readFile (ensureDir q fs) p = readFile fs p := rfl

/-- `find?` on path equality ignores a filtered-out different path. -/
theorem find_filter_aux (q p : Path) (h : p ≠ q) :
    ∀ l : List (Path × String),
      (l.filter (fun f => f.1 ≠ q)).find? (fun f => f.1 = p)
        = l.find? (fun f => f.1 = p)
  | [] => rfl
  | f :: l => by
    have ih := find_filter_aux q p h l
    by_cases hq : f.1 = q
    · have hp : f.1 ≠ p := fun hx => h (by rw [← hx, hq])
      rw [List.filter_cons_of_neg (by simp [hq]), ih,
        List.find?_cons_of_neg _ (by simp [hp])]
    · by_cases hp : f.1 = p
      · rw [List.filter_cons_of_pos (by simp [hq]),
          List.find?_cons_of_pos _ (by simp [hp]),
          List.find?_cons_of_pos _ (by simp [hp])]
      · rw [List.filter_cons_of_pos (by simp [hq]),
          List.find?_cons_of_neg _ (by simp [hp]),
          List.find?_cons_of_neg _ (by simp [hp])]
        exact ih

/-- Writing at `q` does not affect reading at `p ≠ q`. -/
theorem readFile_writeFile_ne (q : Path) (c : String) (fs : FS) (p : Path)
    (h : p ≠ q) : readFile (writeFile q c fs) p = readFile fs p := by
  have hqp : ¬(q = p) := fun hx => h hx.symm
  unfold readFile writeFile
  simp only []
  rw [List.find?_cons_of_neg _ (by simp [hqp]), find_filter_aux q p h]

/-! ## Helper lemmas: processing one template file -/

/-- Processing a marker file whose read and render succeed writes the
rendered text at the computed output path. -/
theorem processFile_ejs (render : RenderFn) (t d : Path) (data : Data)
    (rel : Path) (tc rendered : String) (fs : FS)
    (hejs : isEjsPath rel = true) (hread : readFile fs (t ++ rel) = some tc)
    (hrender : render tc data = .ok rendered) :
    processFile render t d data (t ++ rel) fs
      = (writeFile (d ++ computeOutputRel rel) rendered
          (ensureDir (dirname (d ++ computeOutputRel rel)) fs), none) := by
  unfold processFile renderTemplateFile
  simp only [List.drop_left, hejs, if_true, hread, hrender]

/-- Processing an unmarked file copies its contents to the computed
output path. -/
theorem processFile_static (render : RenderFn) (t d : Path) (data : Data)
    (rel : Path) (tc : String) (fs : FS)
    (hejs : isEjsPath rel = false) (hread : readFile fs (t ++ rel) = some tc) :
    processFile render t d data (t ++ rel) fs
      = (writeFile (d ++ computeOutputRel rel) tc
          (ensureDir (dirname (d ++ computeOutputRel rel)) fs), none) := by
  unfold processFile
  simp only [List.drop_left, hejs, Bool.false_eq_true, if_false, hread]

/-- Writing one file into a previously file-free output directory gives
a one-entry relative tree. -/
theorem relTree_single_write (d out : Path) (c : String) (q : Path) (fs : FS)
    (h : ∀ f ∈ fs.files, isUnder d f.1 = false) :
    relTree d (writeFile (d ++ out) c (ensureDir q fs)) = [(out, c)] := by
  rw [relTree_writeFile, relTree_ensureDir, relTree_eq_nil d fs h]
  rfl

/-! ## Claim theorems: output-name computation (C3, C10) -/

/-- C3: a template file with last component `X.ext.ejs` is rendered and
written once, to the relative path with last component `X.ext`; a file
without the marker is copied byte-for-byte to its own relative path; and
a bare `gitignore` basename becomes `.gitignore`, the rename applying
after the marker strip.  The final conjunct runs `copyAndRenderDir` on a
one-file template directory into a file-free output directory and shows
exactly one output file appears, at the computed name, with rendered
(resp. copied) content. -/
theorem copyAndRenderDir_naming_spec :
    (∀ (ds : List String) (c : String), strEndsWith c ".ejs" = true →
        strDropRight c 4 ≠ "gitignore" →
        isEjsPath (ds ++ [c]) = true ∧
          computeOutputRel (ds ++ [c]) = ds ++ [strDropRight c 4]) ∧
    (∀ (ds : List String) (c : String), strEndsWith c ".ejs" = false →
        c ≠ "gitignore" →
        isEjsPath (ds ++ [c]) = false ∧
          computeOutputRel (ds ++ [c]) = ds ++ [c]) ∧
    computeOutputRel ["gitignore"] = [".gitignore"] ∧
    (∀ (render : RenderFn) (t d : Path) (data : Data) (rel : Path)
        (tc rendered : String) (fs : FS),
        pathExists fs t = true →
        getAllFiles fs t = [t ++ rel] →
        readFile fs (t ++ rel) = some tc →
        (∀ f ∈ fs.files, isUnder d f.1 = false) →
        (isEjsPath rel = true → render tc data = .ok rendered →
          (copyAndRenderDir render t d data fs).2 = none ∧
            relTree d (copyAndRenderDir render t d data fs).1
              = [(computeOutputRel rel, rendered)]) ∧
        (isEjsPath rel = false →
          (copyAndRenderDir render t d data fs).2 = none ∧
            relTree d (copyAndRenderDir render t d data fs).1
              = [(computeOutputRel rel, tc)])) := by
  refine ⟨?_, ?_, ?_, ?_⟩
  · intro ds c hejs hgi
    refine ⟨by rw [isEjsPath_concat, hejs], ?_⟩
    rw [computeOutputRel_concat_ejs ds c hejs, if_neg hgi]
  · intro ds c hejs hgi
    refine ⟨by rw [isEjsPath_concat, hejs], ?_⟩
    rw [computeOutputRel_concat_static ds c hejs, if_neg hgi]
  · rfl
  · intro render t d data rel tc rendered fs hpe hget hread hfree
    unfold copyAndRenderDir
    rw [hpe, if_pos rfl, hget]
    constructor
    · intro hejs hrender
      unfold processFiles
      rw [processFile_ejs render t d data rel tc rendered fs hejs hread hrender]
      exact ⟨rfl, relTree_single_write d (computeOutputRel rel) rendered _ fs hfree⟩
    · intro hejs
      unfold processFiles
      rw [processFile_static render t d data rel tc fs hejs hread]
      exact ⟨rfl, relTree_single_write d (computeOutputRel rel) tc _ fs hfree⟩

/-- C3 witness: a one-file template directory containing
`app/package.json.ejs` rendered into an empty output directory produces
exactly the file `app/package.json` with the rendered content. -/
theorem copyAndRenderDir_naming_spec_witness :
    (isEjsPath (["app"] ++ ["package.json.ejs"]) = true ∧
      computeOutputRel (["app"] ++ ["package.json.ejs"])
        = ["app"] ++ ["package.json"]) ∧
    ((copyAndRenderDir (fun _ _ => .ok "REN") ["t"] ["o"]
        (Data.frontendCtx "app" "css" false)
        ⟨[["t"]], [(["t"] ++ ["app", "package.json.ejs"], "TC")]⟩).2 = none ∧
      relTree ["o"] (copyAndRenderDir (fun _ _ => .ok "REN") ["t"] ["o"]
        (Data.frontendCtx "app" "css" false)
        ⟨[["t"]], [(["t"] ++ ["app", "package.json.ejs"], "TC")]⟩).1
        = [(computeOutputRel ["app", "package.json.ejs"], "REN")]) :=
  ⟨copyAndRenderDir_naming_spec.1 ["app"] "package.json.ejs" (by decide)
      (by decide),
   (copyAndRenderDir_naming_spec.2.2.2 (fun _ _ => .ok "REN") ["t"] ["o"]
      (Data.frontendCtx "app" "css" false) ["app", "package.json.ejs"]
      "TC" "REN" ⟨[["t"]], [(["t"] ++ ["app", "package.json.ejs"], "TC")]⟩
      (by decide) (by decide) (by decide) (by decide)).1 (by decide) rfl⟩

/-- C10: the dotfile-restoring rename fires for a basename that is
exactly `gitignore` at any directory depth, including through the `.ejs`
marker (`sub/dir/gitignore.ejs` renders to `sub/dir/.gitignore`), and
never fires for a basename that merely ends in `gitignore` (such as
`my-gitignore`). -/
theorem gitignore_rename_spec :
    (∀ ds : List String,
        isEjsPath (ds ++ ["gitignore.ejs"]) = true ∧
          computeOutputRel (ds ++ ["gitignore.ejs"]) = ds ++ [".gitignore"]) ∧
    (∀ ds : List String,
        computeOutputRel (ds ++ ["gitignore"]) = ds ++ [".gitignore"]) ∧
    (∀ (ds : List String) (c : String), c ≠ "gitignore" →
        strEndsWith c ".ejs" = false →
        computeOutputRel (ds ++ [c]) = ds ++ [c]) ∧
    (∀ (ds : List String) (c : String), strEndsWith c ".ejs" = true →
        strDropRight c 4 ≠ "gitignore" →
        computeOutputRel (ds ++ [c]) = ds ++ [strDropRight c 4]) := by
  refine ⟨?_, ?_, ?_, ?_⟩
  · intro ds
    refine ⟨by rw [isEjsPath_concat]; decide, ?_⟩
    have h4 : strDropRight "gitignore.ejs" 4 = "gitignore" := by decide
    rw [computeOutputRel_concat_ejs ds "gitignore.ejs" (by decide), h4,
      if_pos rfl]
  · intro ds
    rw [computeOutputRel_concat_static ds "gitignore" (by decide), if_pos rfl]
  · intro ds c hgi hejs
    rw [computeOutputRel_concat_static ds c hejs, if_neg hgi]
  · intro ds c hejs hgi
    rw [computeOutputRel_concat_ejs ds c hejs, if_neg hgi]

/-- C10 witness: the rename at depth two, through the marker, and the
non-rename of the basename `my-gitignore`. -/
theorem gitignore_rename_spec_witness :
    (isEjsPath (["sub", "dir"] ++ ["gitignore.ejs"]) = true ∧
      computeOutputRel (["sub", "dir"] ++ ["gitignore.ejs"])
        = ["sub", "dir"] ++ [".gitignore"]) ∧
    computeOutputRel (["sub", "dir"] ++ ["my-gitignore"])
      = ["sub", "dir"] ++ ["my-gitignore"] :=
  ⟨gitignore_rename_spec.1 ["sub", "dir"],
   gitignore_rename_spec.2.2.1 ["sub", "dir"] "my-gitignore" (by decide)
     (by decide)⟩

/-! ## Helper lemmas: scaffolder guard and rollback -/

/-- After `fs.remove(p)`, the path `p` no longer exists. -/
theorem pathExists_removePath (p : Path) (fs : FS) :
    pathExists (removePath p fs) p = false := by
  unfold pathExists removePath
  simp only [Bool.or_eq_false_iff, List.any_eq_false, List.mem_filter,
    Bool.not_eq_true']
  constructor
  · exact fun d hd => by simp [hd.2]
  · exact fun f hf => by simp [hf.2]

/-- Whenever the `try … catch` of `scaffold` re-raises an error, the
output root is gone from the resulting state. -/
theorem scaffoldTry_err (render : RenderFn) (gitOk : Bool)
    (config : ProjectConfig) (fs fs1 : FS) (tr : List Event)
    (e : ScaffoldError)
    (h : scaffoldTry render gitOk config fs = (fs1, tr, some e)) :
    pathExists fs1 (projectDirOf config) = false := by
  unfold scaffoldTry at h
  rcases hs : scaffoldSteps render gitOk config fs with ⟨fs2, tr2, e2⟩
  rw [hs] at h
  cases e2 with
  | none => simp at h
  | some e3 =>
    simp only [] at h
    by_cases hpe : pathExists fs2 (projectDirOf config) = true
    · rw [if_pos hpe] at h
      simp only [Prod.mk.injEq] at h
      rw [← h.1]
      exact pathExists_removePath _ _
    · rw [if_neg hpe] at h
      simp only [Prod.mk.injEq] at h
      rw [← h.1]
      exact Bool.not_eq_true _ ▸ Bool.of_not_eq_true hpe

/-! ## Claim theorems: guard and rollback (C1, C2) -/

/-- C1: whenever `scaffold` fails inside steps 3–7 (any error other
than the pre-flight `DirectoryExistsError`), the output root directory
does not exist in the resulting filesystem state: the `catch` deletes
the entire output root before re-raising. -/
theorem scaffold_rollback_spec (render : RenderFn) (gitOk : Bool)
    (config : ProjectConfig) (options : CliOptions) (fs fs1 : FS)
    (tr : List Event) (e : ScaffoldError)
    (h : scaffold render gitOk config options fs = (fs1, tr, some e))
    (hne : e ≠ .directoryExists) :
    pathExists fs1 (projectDirOf config) = false := by
  unfold scaffold at h
  simp only [] at h
  by_cases hpe : pathExists fs (projectDirOf config) = true
  · rw [if_pos hpe] at h
    by_cases hf : options.force = true
    · rw [if_pos hf] at h
      exact scaffoldTry_err _ _ _ _ _ _ _ h
    · rw [if_neg hf] at h
      simp only [Prod.mk.injEq] at h
      exact absurd (Option.some.inj h.2.2).symm hne
  · rw [if_neg hpe] at h
    exact scaffoldTry_err _ _ _ _ _ _ _ h

/-- C1 witness: a run whose first frontend render throws rolls back,
leaving no output root. -/
theorem scaffold_rollback_spec_witness :
    pathExists
      { dirs := [["__pkg", "templates", "frontend", "nuxt"],
                 ["__pkg", "templates", "backend", "nestjs"],
                 ["__pkg", "templates", "root"]],
        files := [(["__pkg", "templates", "frontend", "nuxt",
                    "package.json.ejs"], "PKG")] }
      (projectDirOf ⟨"demo", [⟨"app", "nuxt", "sass", 3000, false⟩], 3001,
        "demo_db", "postgres", "password", some "secret", none⟩) = false :=
  scaffold_rollback_spec (fun _ _ => .error "boom") true
    ⟨"demo", [⟨"app", "nuxt", "sass", 3000, false⟩], 3001,
      "demo_db", "postgres", "password", some "secret", none⟩
    ⟨false, false⟩
    { dirs := [["__pkg", "templates", "frontend", "nuxt"],
               ["__pkg", "templates", "backend", "nestjs"],
               ["__pkg", "templates", "root"]],
      files := [(["__pkg", "templates", "frontend", "nuxt",
                  "package.json.ejs"], "PKG")] }
    { dirs := [["__pkg", "templates", "frontend", "nuxt"],
               ["__pkg", "templates", "backend", "nestjs"],
               ["__pkg", "templates", "root"]],
      files := [(["__pkg", "templates", "frontend", "nuxt",
                  "package.json.ejs"], "PKG")] }
    [Event.renderDir (templatesDir ++ ["frontend", "nuxt"])
      (projectDirOf ⟨"demo", [⟨"app", "nuxt", "sass", 3000, false⟩], 3001,
        "demo_db", "postgres", "password", some "secret", none⟩ ++ ["app"])
      (Data.frontendCtx "app" "sass" false)]
    (.templateError "boom") (by decide) (by decide)

/-- C2: against a pre-existing output root without `force`, `scaffold`
raises `DirectoryExistsError` with the filesystem state returned
exactly as it was — no mutation, no step performed. -/
theorem scaffold_guard_spec (render : RenderFn) (gitOk : Bool)
    (config : ProjectConfig) (options : CliOptions) (fs : FS)
    (hpe : pathExists fs (projectDirOf config) = true)
    (hf : options.force = false) :
    scaffold render gitOk config options fs
      = (fs, [], some .directoryExists) := by
  unfold scaffold
  rw [if_pos hpe, if_neg (by simp [hf])]

/-- C2 witness: a concrete pre-existing output root is returned
untouched together with `DirectoryExistsError`. -/
theorem scaffold_guard_spec_witness :
    scaffold (fun _ _ => .ok "x") true
      ⟨"demo", [], 3001, "demo_db", "postgres", "password", none, none⟩
      ⟨false, false⟩
      { dirs := [["__cwd", "demo"]],
        files := [(["__cwd", "demo", "keep.txt"], "KEEP")] }
      = ({ dirs := [["__cwd", "demo"]],
           files := [(["__cwd", "demo", "keep.txt"], "KEEP")] },
         [], some .directoryExists) :=
  scaffold_guard_spec (fun _ _ => .ok "x") true
    ⟨"demo", [], 3001, "demo_db", "postgres", "password", none, none⟩
    ⟨false, false⟩
    { dirs := [["__cwd", "demo"]],
      files := [(["__cwd", "demo", "keep.txt"], "KEEP")] }
    (by decide) rfl

/-! ## Helper lemmas: the scaffold run only touches the output root

`removePath p fs` doubles as the projection of a state onto the part
outside `p`, so frame ("touches only the output root") lemmas are
stated as `removePath p` being preserved. -/

theorem mapLast_ne_nil (f : String → String) {l : Path} (h : l ≠ []) :
    mapLast f l ≠ [] := by
  cases l with
  | nil => exact absurd rfl h
  | cons c rest => cases rest <;> simp [mapLast]

theorem computeOutputRel_ne_nil {rel : Path} (h : rel ≠ []) :
    computeOutputRel rel ≠ [] := by
  unfold computeOutputRel
  by_cases he : isEjsPath rel = true
  · simp only [he, if_true]
    exact mapLast_ne_nil _ (mapLast_ne_nil _ h)
  · simp only [he, if_false]
    exact mapLast_ne_nil _ h

theorem removePath_removePath (p : Path) (fs : FS) :
    removePath p (removePath p fs) = removePath p fs := by
  unfold removePath
  simp [List.filter_filter]

theorem removePath_of_not_exists (p : Path) (fs : FS)
    (h : pathExists fs p = false) : removePath p fs = fs := by
  unfold pathExists at h
  rw [Bool.or_eq_false_iff] at h
  obtain ⟨hd, hf⟩ := h
  rw [List.any_eq_false] at hd hf
  unfold removePath
  cases fs with
  | mk dirs files =>
    simp only [FS.mk.injEq]
    constructor
    · exact List.filter_eq_self.mpr fun d hdm => by simp [hd d hdm]
    · exact List.filter_eq_self.mpr fun f hfm => by simp [hf f hfm]

theorem removePath_ensureDir (p q : Path) (fs : FS)
    (hq : isUnder p q = true) :
    removePath p (ensureDir q fs) = removePath p fs := by
  unfold removePath ensureDir
  simp only [FS.mk.injEq, and_true]
  rw [List.filter_cons_of_neg (by simp [hq])]

/-- Dropping the entries at a removed path commutes past an overwrite
filter for a path under `p`. -/
theorem filter_outside_write_aux (p q : Path) (hq : isUnder p q = true) :
    ∀ l : List (Path × String),
      (l.filter (fun f => f.1 ≠ q)).filter (fun f => !isUnder p f.1)
        = l.filter (fun f => !isUnder p f.1)
  | [] => rfl
  | f :: l => by
    have ih := filter_outside_write_aux p q hq l
    by_cases hu : isUnder p f.1 = true
    · by_cases hfq : f.1 = q
      · rw [List.filter_cons_of_neg (by simp [hfq]),
          List.filter_cons_of_neg (by simp [hu])]
        exact ih
      · rw [List.filter_cons_of_pos (by simp [hfq]),
          List.filter_cons_of_neg (by simp [hu]),
          List.filter_cons_of_neg (by simp [hu])]
        exact ih
    · have hu2 : isUnder p f.1 = false := by simpa using hu
      have hfq : f.1 ≠ q := fun hx => by rw [hx, hq] at hu2; cases hu2
      rw [List.filter_cons_of_pos (by simp [hfq]),
        List.filter_cons_of_pos (by simp [hu2]),
        List.filter_cons_of_pos (by simp [hu2])]
      exact congrArg _ ih

theorem removePath_writeFile (p q : Path) (c : String) (fs : FS)
    (hq : isUnder p q = true) :
    removePath p (writeFile q c fs) = removePath p fs := by
  unfold removePath writeFile
  simp only [FS.mk.injEq, true_and]
  rw [List.filter_cons_of_neg (by simp [hq]), filter_outside_write_aux p q hq]

theorem removePath_renderTemplateFile (render : RenderFn) (tp op : Path)
    (data : Data) (fs : FS) (p : Path) (hop : isUnder p op = true)
    (hdir : isUnder p (dirname op) = true) :
    removePath p (renderTemplateFile render tp op data fs).1
      = removePath p fs := by
  unfold renderTemplateFile
  rcases readFile fs tp with _ | tc
  · rfl
  · simp only []
    rcases render tc data with msg | rendered
    · rfl
    · simp only []
      rw [removePath_writeFile p op rendered _ hop,
        removePath_ensureDir p (dirname op) fs hdir]

theorem removePath_processFile (render : RenderFn) (t od : Path)
    (data : Data) (q : Path) (fs : FS) (p : Path)
    (hod : isUnder p od = true) (hlen : t.length < q.length) :
    removePath p (processFile render t od data q fs).1 = removePath p fs := by
  have hrel : q.drop t.length ≠ [] := by
    intro hnil
    have := List.length_drop t.length q
    rw [hnil] at this
    simp at this
    omega
  have hout : computeOutputRel (q.drop t.length) ≠ [] :=
    computeOutputRel_ne_nil hrel
  have hop : isUnder p (od ++ computeOutputRel (q.drop t.length)) = true :=
    isUnder_trans hod (isUnder_append _ _)
  have hdir :
      isUnder p (dirname (od ++ computeOutputRel (q.drop t.length))) = true := by
    unfold dirname
    rw [List.dropLast_append_of_ne_nil od hout]
    exact isUnder_trans hod (isUnder_append _ _)
  unfold processFile
  simp only []
  by_cases hejs : isEjsPath (q.drop t.length) = true
  · rw [if_pos hejs]
    exact removePath_renderTemplateFile render q _ data fs p hop hdir
  · rw [if_neg hejs]
    rcases readFile fs q with _ | tc
    · rfl
    · simp only []
      rw [removePath_writeFile p _ tc _ hop, removePath_ensureDir p _ fs hdir]

theorem removePath_processFiles (render : RenderFn) (t od : Path)
    (data : Data) (p : Path) (hod : isUnder p od = true) :
    ∀ (files : List Path) (fs : FS), (∀ q ∈ files, t.length < q.length) →
      removePath p (processFiles render t od data files fs).1
        = removePath p fs
  | [], fs, _ => rfl
  | q :: rest, fs, hq => by
    unfold processFiles
    rcases h : processFile render t od data q fs with ⟨fs1, e1⟩
    have hfr : removePath p fs1 = removePath p fs := by
      have := removePath_processFile render t od data q fs p hod
        (hq q (List.mem_cons_self q rest))
      rw [h] at this
      exact this
    cases e1 with
    | some e =>
      simp only []
      exact hfr
    | none =>
      simp only []
      rw [removePath_processFiles render t od data p hod rest fs1
        (fun r hr => hq r (List.mem_cons_of_mem q hr)), hfr]

theorem removePath_copyAndRenderDir (render : RenderFn) (t od : Path)
    (data : Data) (fs : FS) (p : Path) (hod : isUnder p od = true) :
    removePath p (copyAndRenderDir render t od data fs).1
      = removePath p fs := by
  unfold copyAndRenderDir
  by_cases hpe : pathExists fs t = true
  · rw [if_pos hpe]
    refine removePath_processFiles render t od data p hod _ fs ?_
    intro q hq
    unfold getAllFiles at hq
    obtain ⟨-, hcond⟩ := List.mem_filter.mp hq
    rw [Bool.and_eq_true] at hcond
    exact of_decide_eq_true hcond.2
  · rw [if_neg hpe]

theorem removePath_renderFrontends (render : RenderFn) (pd : Path) :
    ∀ (fes : List FrontendConfig) (fs : FS),
      removePath pd (renderFrontends render pd fes fs).1 = removePath pd fs
  | [], fs => rfl
  | fe :: rest, fs => by
    have ihall := fun fs2 => removePath_renderFrontends render pd rest fs2
    unfold renderFrontends
    simp only []
    rcases h1 : copyAndRenderDir render
        (templatesDir ++ ["frontend", fe.framework]) (pd ++ [fe.name])
        (frontendCtxOf fe) fs with ⟨fs1, e1⟩
    have hf1 : removePath pd fs1 = removePath pd fs := by
      have h := removePath_copyAndRenderDir render
        (templatesDir ++ ["frontend", fe.framework]) (pd ++ [fe.name])
        (frontendCtxOf fe) fs pd (isUnder_append pd [fe.name])
      rw [h1] at h
      exact h
    cases e1 with
    | some e => simpa using hf1
    | none =>
      simp only []
      split
      · rcases h2 : copyAndRenderDir render
            (templatesDir ++ ["frontend", "vue-shadcn"]) (pd ++ [fe.name])
            (frontendCtxOf fe) fs1 with ⟨fs2, e2⟩
        have hf2 : removePath pd fs2 = removePath pd fs1 := by
          have h := removePath_copyAndRenderDir render
            (templatesDir ++ ["frontend", "vue-shadcn"]) (pd ++ [fe.name])
            (frontendCtxOf fe) fs1 pd (isUnder_append pd [fe.name])
          rw [h2] at h
          exact h
        cases e2 with
        | some e => simp only []; rw [hf2, hf1]
        | none =>
          simp only []
          rcases h3 : renderFrontends render pd rest fs2 with ⟨fs3, tr3, e3⟩
          have hf3 : removePath pd fs3 = removePath pd fs2 := by
            have h := ihall fs2
            rw [h3] at h
            exact h
          simp only []
          rw [hf3, hf2, hf1]
      · simp only []
        rcases h3 : renderFrontends render pd rest fs1 with ⟨fs3, tr3, e3⟩
        have hf3 : removePath pd fs3 = removePath pd fs1 := by
          have h := ihall fs1
          rw [h3] at h
          exact h
        simp only []
        rw [hf3, hf1]

theorem removePath_scaffoldSteps (render : RenderFn) (gitOk : Bool)
    (config : ProjectConfig) (fs : FS) :
    removePath (projectDirOf config)
        (scaffoldSteps render gitOk config fs).1
      = removePath (projectDirOf config) fs := by
  unfold scaffoldSteps
  simp only []
  rcases h1 : renderFrontends render (projectDirOf config) config.frontends
      (ensureDir (projectDirOf config) fs) with ⟨fs1, tr1, e1⟩
  have hf1 : removePath (projectDirOf config) fs1
      = removePath (projectDirOf config) fs := by
    have h := removePath_renderFrontends render (projectDirOf config)
      config.frontends (ensureDir (projectDirOf config) fs)
    rw [h1] at h
    rw [h, removePath_ensureDir _ _ _ (isUnder_refl _)]
  cases e1 with
  | some e => exact hf1
  | none =>
    simp only []
    rcases h2 : copyAndRenderDir render (templatesDir ++ ["backend", "nestjs"])
        (projectDirOf config ++ ["backend"])
        (Data.backendCtx config.projectName config.backendPort) fs1
        with ⟨fs2, e2⟩
    have hf2 : removePath (projectDirOf config) fs2
        = removePath (projectDirOf config) fs1 := by
      have h := removePath_copyAndRenderDir render
        (templatesDir ++ ["backend", "nestjs"])
        (projectDirOf config ++ ["backend"])
        (Data.backendCtx config.projectName config.backendPort) fs1
        (projectDirOf config) (isUnder_append _ ["backend"])
      rw [h2] at h
      exact h
    cases e2 with
    | some e => simp only []; rw [hf2, hf1]
    | none =>
      simp only []
      rcases h3 : copyAndRenderDir render (templatesDir ++ ["root"])
          (projectDirOf config) (rootCtxOf config) fs2 with ⟨fs3, e3⟩
      have hf3 : removePath (projectDirOf config) fs3
          = removePath (projectDirOf config) fs2 := by
        have h := removePath_copyAndRenderDir render (templatesDir ++ ["root"])
          (projectDirOf config) (rootCtxOf config) fs2
          (projectDirOf config) (isUnder_refl _)
        rw [h3] at h
        exact h
      cases e3 with
      | some e => simp only []; rw [hf3, hf2, hf1]
      | none =>
        simp only []
        split
        · simp only []; rw [hf3, hf2, hf1]
        · simp only []; rw [hf3, hf2, hf1]

/-- On an error, the `try … catch` hands back exactly the input state
with the output root removed. -/
theorem scaffoldTry_err_fs (render : RenderFn) (gitOk : Bool)
    (config : ProjectConfig) (fs fs1 : FS) (tr : List Event)
    (e : ScaffoldError)
    (h : scaffoldTry render gitOk config fs = (fs1, tr, some e)) :
    fs1 = removePath (projectDirOf config) fs := by
  unfold scaffoldTry at h
  rcases hs : scaffoldSteps render gitOk config fs with ⟨fs2, tr2, e2⟩
  rw [hs] at h
  have hframe : removePath (projectDirOf config) fs2
      = removePath (projectDirOf config) fs := by
    have := removePath_scaffoldSteps render gitOk config fs
    rw [hs] at this
    exact this
  cases e2 with
  | none => simp at h
  | some e3 =>
    simp only [] at h
    by_cases hpe : pathExists fs2 (projectDirOf config) = true
    · rw [if_pos hpe] at h
      simp only [Prod.mk.injEq] at h
      rw [← h.1, hframe]
    · rw [if_neg hpe] at h
      simp only [Prod.mk.injEq] at h
      rw [← h.1, ← hframe,
        removePath_of_not_exists _ _ (by simpa using hpe)]

/-! ## Claim theorem: forced overwrite and rollback (C9) -/

/-- C9: with `force` and a pre-existing output root, a failed run ends
with the output root absent — neither the original directory nor any
new output survives — and the final state is exactly the initial state
with the output root subtree removed, so nothing outside the output
root is touched and the pre-existing deletion is not undone. -/
theorem scaffold_force_rollback_spec (render : RenderFn) (gitOk : Bool)
    (config : ProjectConfig) (options : CliOptions) (fs fs1 : FS)
    (tr : List Event) (e : ScaffoldError)
    (hpe : pathExists fs (projectDirOf config) = true)
    (hf : options.force = true)
    (h : scaffold render gitOk config options fs = (fs1, tr, some e)) :
    pathExists fs1 (projectDirOf config) = false ∧
      fs1 = removePath (projectDirOf config) fs := by
  have h2 := h
  unfold scaffold at h2
  simp only [] at h2
  rw [if_pos hpe, if_pos hf] at h2
  refine ⟨?_, ?_⟩
  · exact scaffoldTry_err render gitOk config _ fs1 tr e h2
  · rw [scaffoldTry_err_fs render gitOk config _ fs1 tr e h2,
      removePath_removePath]

/-- C9 witness: a forced run over a pre-existing root whose backend
render fails ends with no output root and exactly the pre-existing
subtree deleted. -/
theorem scaffold_force_rollback_spec_witness :
    pathExists
      { dirs := ([] : List Path),
        files := [(["__cwd", "other.txt"], "SAFE")] }
      (projectDirOf ⟨"demo", [], 3001, "db", "u", "p", none, none⟩) = false ∧
    ({ dirs := ([] : List Path),
       files := [(["__cwd", "other.txt"], "SAFE")] } : FS)
      = removePath (projectDirOf ⟨"demo", [], 3001, "db", "u", "p", none, none⟩)
          { dirs := [["__cwd", "demo"]],
            files := [(["__cwd", "demo", "old.txt"], "OLD"),
                      (["__cwd", "other.txt"], "SAFE")] } :=
  scaffold_force_rollback_spec (fun _ _ => .ok "x") true
    ⟨"demo", [], 3001, "db", "u", "p", none, none⟩ ⟨true, false⟩
    { dirs := [["__cwd", "demo"]],
      files := [(["__cwd", "demo", "old.txt"], "OLD"),
                (["__cwd", "other.txt"], "SAFE")] }
    { dirs := ([] : List Path),
      files := [(["__cwd", "other.txt"], "SAFE")] }
    [Event.renderDir (templatesDir ++ ["backend", "nestjs"])
      (projectDirOf ⟨"demo", [], 3001, "db", "u", "p", none, none⟩
        ++ ["backend"]) (Data.backendCtx "demo" 3001)]
    .fsError (by decide) rfl (by decide)

/-! ## Helper lemmas: the trace of a successful run (C7) -/

/-- The per-frontend portion of the expected trace. -/
def expectedFrontendTrace (pd : Path) (fes : List FrontendConfig) :
    List Event :=
  fes.flatMap (fun fe =>
    Event.renderDir (templatesDir ++ ["frontend", fe.framework])
        (pd ++ [fe.name]) (frontendCtxOf fe) ::
      (if fe.framework = "vue" && fe.useShadcn then
        [Event.renderDir (templatesDir ++ ["frontend", "vue-shadcn"])
          (pd ++ [fe.name]) (frontendCtxOf fe)]
      else []))

/-- A successful frontends loop performs exactly the expected renders
in declaration order. -/
theorem renderFrontends_trace (render : RenderFn) (pd : Path) :
    ∀ (fes : List FrontendConfig) (fs fs1 : FS) (tr : List Event),
      renderFrontends render pd fes fs = (fs1, tr, none) →
      tr = expectedFrontendTrace pd fes
  | [], fs, fs1, tr, h => by
    unfold renderFrontends at h
    simp only [Prod.mk.injEq] at h
    rw [← h.2.1]
    rfl
  | fe :: rest, fs, fs1, tr, h => by
    unfold renderFrontends at h
    simp only [] at h
    rcases h1 : copyAndRenderDir render
        (templatesDir ++ ["frontend", fe.framework]) (pd ++ [fe.name])
        (frontendCtxOf fe) fs with ⟨fsa, e1⟩
    rw [h1] at h
    cases e1 with
    | some e => simp at h
    | none =>
      simp only [] at h
      by_cases hsh : (fe.framework = "vue" && fe.useShadcn) = true
      · rw [if_pos hsh] at h
        rcases h2 : copyAndRenderDir render
            (templatesDir ++ ["frontend", "vue-shadcn"]) (pd ++ [fe.name])
            (frontendCtxOf fe) fsa with ⟨fsb, e2⟩
        rw [h2] at h
        cases e2 with
        | some e => simp at h
        | none =>
          simp only [] at h
          rcases h3 : renderFrontends render pd rest fsb with ⟨fsc, tr3, e3⟩
          rw [h3] at h
          simp only [Prod.mk.injEq] at h
          cases e3 with
          | some e => simp at h
          | none =>
            have ihtr : tr3 = expectedFrontendTrace pd rest :=
              renderFrontends_trace render pd rest fsb fsc tr3 h3
            rw [← h.2.1, ihtr]
            unfold expectedFrontendTrace
            rw [List.flatMap_cons, if_pos hsh]
            rfl
      · rw [if_neg hsh] at h
        rcases h3 : renderFrontends render pd rest fsa with ⟨fsc, tr3, e3⟩
        rw [h3] at h
        simp only [Prod.mk.injEq] at h
        cases e3 with
        | some e => simp at h
        | none =>
          have ihtr : tr3 = expectedFrontendTrace pd rest :=
            renderFrontends_trace render pd rest fsa fsc tr3 h3
          rw [← h.2.1, ihtr]
          unfold expectedFrontendTrace
          rw [List.flatMap_cons, if_neg hsh]
          rfl

/-- The expected trace is the frontends part followed by backend, root
and `git init`. -/
theorem expectedTrace_eq (config : ProjectConfig) :
    expectedTrace config =
      expectedFrontendTrace (projectDirOf config) config.frontends ++
        [Event.renderDir (templatesDir ++ ["backend", "nestjs"])
           (projectDirOf config ++ ["backend"])
           (Data.backendCtx config.projectName config.backendPort),
         Event.renderDir (templatesDir ++ ["root"]) (projectDirOf config)
           (rootCtxOf config),
         Event.gitInit (projectDirOf config)] := rfl

/-- A successful step sequence produces exactly the expected trace. -/
theorem scaffoldSteps_trace (render : RenderFn) (gitOk : Bool)
    (config : ProjectConfig) (fs fs1 : FS) (tr : List Event)
    (h : scaffoldSteps render gitOk config fs = (fs1, tr, none)) :
    tr = expectedTrace config := by
  unfold scaffoldSteps at h
  simp only [] at h
  rcases h1 : renderFrontends render (projectDirOf config) config.frontends
      (ensureDir (projectDirOf config) fs) with ⟨fsa, tra, e1⟩
  rw [h1] at h
  cases e1 with
  | some e => simp at h
  | none =>
    simp only [] at h
    rcases h2 : copyAndRenderDir render (templatesDir ++ ["backend", "nestjs"])
        (projectDirOf config ++ ["backend"])
        (Data.backendCtx config.projectName config.backendPort) fsa
        with ⟨fsb, e2⟩
    rw [h2] at h
    cases e2 with
    | some e => simp at h
    | none =>
      simp only [] at h
      rcases h3 : copyAndRenderDir render (templatesDir ++ ["root"])
          (projectDirOf config) (rootCtxOf config) fsb with ⟨fsc, e3⟩
      rw [h3] at h
      cases e3 with
      | some e => simp at h
      | none =>
        simp only [] at h
        by_cases hg : gitOk = true
        · rw [if_pos hg] at h
          simp only [Prod.mk.injEq] at h
          rw [← h.2.1, expectedTrace_eq,
            renderFrontends_trace render (projectDirOf config)
              config.frontends _ fsa tra h1]
        · rw [if_neg hg] at h
          simp at h

/-! ## Claim theorem: step ordering (C7) -/

/-- C7: a successful `scaffold` run performs exactly the expected
sequence of effectful steps — every frontend subtree in declaration
order, then the backend subtree into `backend`, then the root template
set into the output root, and `git init` strictly last. -/
theorem scaffold_order_spec (render : RenderFn) (gitOk : Bool)
    (config : ProjectConfig) (options : CliOptions) (fs fs1 : FS)
    (tr : List Event)
    (h : scaffold render gitOk config options fs = (fs1, tr, none)) :
    tr = expectedTrace config ∧
      tr.getLast? = some (Event.gitInit (projectDirOf config)) := by
  have htr : tr = expectedTrace config := by
    unfold scaffold at h
    simp only [] at h
    have hTry : ∀ fs0 : FS,
        scaffoldTry render gitOk config fs0 = (fs1, tr, none) →
        tr = expectedTrace config := by
      intro fs0 h0
      unfold scaffoldTry at h0
      rcases hs : scaffoldSteps render gitOk config fs0 with ⟨fs2, tr2, e2⟩
      rw [hs] at h0
      cases e2 with
      | none =>
        simp only [Prod.mk.injEq] at h0
        rw [← h0.2.1]
        exact scaffoldSteps_trace render gitOk config fs0 fs2 tr2 hs
      | some e =>
        simp only [] at h0
        by_cases hpe : pathExists fs2 (projectDirOf config) = true
        · rw [if_pos hpe] at h0
          simp at h0
        · rw [if_neg hpe] at h0
          simp at h0
    by_cases hpe : pathExists fs (projectDirOf config) = true
    · rw [if_pos hpe] at h
      by_cases hf : options.force = true
      · rw [if_pos hf] at h
        exact hTry _ h
      · rw [if_neg hf] at h
        simp at h
    · rw [if_neg hpe] at h
      exact hTry _ h
  refine ⟨htr, ?_⟩
  rw [htr, expectedTrace_eq,
    show ([Event.renderDir (templatesDir ++ ["backend", "nestjs"])
             (projectDirOf config ++ ["backend"])
             (Data.backendCtx config.projectName config.backendPort),
           Event.renderDir (templatesDir ++ ["root"]) (projectDirOf config)
             (rootCtxOf config),
           Event.gitInit (projectDirOf config)] : List Event)
        = [Event.renderDir (templatesDir ++ ["backend", "nestjs"])
             (projectDirOf config ++ ["backend"])
             (Data.backendCtx config.projectName config.backendPort),
           Event.renderDir (templatesDir ++ ["root"]) (projectDirOf config)
             (rootCtxOf config)] ++ [Event.gitInit (projectDirOf config)]
      from rfl,
    ← List.append_assoc]
  exact List.getLast?_concat _

/-- C7 witness: a concrete successful run with one Nuxt frontend
performs [frontend render, backend render, root render, git init] in
that order, ending with `git init`. -/
theorem scaffold_order_spec_witness :
    ([Event.renderDir (templatesDir ++ ["frontend", "nuxt"])
        (["__cwd", "demo"] ++ ["app"]) (Data.frontendCtx "app" "sass" false),
      Event.renderDir (templatesDir ++ ["backend", "nestjs"])
        (["__cwd", "demo"] ++ ["backend"]) (Data.backendCtx "demo" 3001),
      Event.renderDir (templatesDir ++ ["root"]) ["__cwd", "demo"]
        (Data.rootCtx "demo" ["app"] 3001 "db" "u" "p" "s"),
      Event.gitInit ["__cwd", "demo"]] : List Event)
        = expectedTrace ⟨"demo", [⟨"app", "nuxt", "sass", 3000, false⟩], 3001,
            "db", "u", "p", some "s", none⟩ ∧
      ([Event.renderDir (templatesDir ++ ["frontend", "nuxt"])
          (["__cwd", "demo"] ++ ["app"]) (Data.frontendCtx "app" "sass" false),
        Event.renderDir (templatesDir ++ ["backend", "nestjs"])
          (["__cwd", "demo"] ++ ["backend"]) (Data.backendCtx "demo" 3001),
        Event.renderDir (templatesDir ++ ["root"]) ["__cwd", "demo"]
          (Data.rootCtx "demo" ["app"] 3001 "db" "u" "p" "s"),
        Event.gitInit ["__cwd", "demo"]] : List Event).getLast?
        = some (Event.gitInit (projectDirOf ⟨"demo",
            [⟨"app", "nuxt", "sass", 3000, false⟩], 3001,
            "db", "u", "p", some "s", none⟩)) :=
  scaffold_order_spec (fun t _ => .ok t) true
    ⟨"demo", [⟨"app", "nuxt", "sass", 3000, false⟩], 3001,
      "db", "u", "p", some "s", none⟩ ⟨false, false⟩
    { dirs := [templatesDir ++ ["frontend", "nuxt"],
               templatesDir ++ ["backend", "nestjs"],
               templatesDir ++ ["root"]],
      files := [] }
    { dirs := [["__cwd", "demo"],
               templatesDir ++ ["frontend", "nuxt"],
               templatesDir ++ ["backend", "nestjs"],
               templatesDir ++ ["root"]],
      files := [] }
    [Event.renderDir (templatesDir ++ ["frontend", "nuxt"])
        (["__cwd", "demo"] ++ ["app"]) (Data.frontendCtx "app" "sass" false),
      Event.renderDir (templatesDir ++ ["backend", "nestjs"])
        (["__cwd", "demo"] ++ ["backend"]) (Data.backendCtx "demo" 3001),
      Event.renderDir (templatesDir ++ ["root"]) ["__cwd", "demo"]
        (Data.rootCtx "demo" ["app"] 3001 "db" "u" "p" "s"),
      Event.gitInit ["__cwd", "demo"]]
    (by decide)

/-! ## Helper lemmas: one-step equations for `processFile` -/

theorem processFile_eq_none (render : RenderFn) (t d : Path) (data : Data)
    (q : Path) (fs : FS) (h : readFile fs q = none) :
    processFile render t d data q fs = (fs, some .fsError) := by
  unfold processFile renderTemplateFile
  by_cases hejs : isEjsPath (q.drop t.length) = true
  · simp only [hejs, if_true, h]
  · have hejs2 : isEjsPath (q.drop t.length) = false := by simpa using hejs
    simp only [hejs2, Bool.false_eq_true, if_false, h]

theorem processFile_eq_ejs_err (render : RenderFn) (t d : Path) (data : Data)
    (q : Path) (fs : FS) (tc msg : String)
    (hejs : isEjsPath (q.drop t.length) = true)
    (hread : readFile fs q = some tc) (hr : render tc data = .error msg) :
    processFile render t d data q fs
      = (fs, some (.templateError msg)) := by
  unfold processFile renderTemplateFile
  simp only [hejs, if_true, hread, hr]

theorem processFile_eq_ejs_ok (render : RenderFn) (t d : Path) (data : Data)
    (q : Path) (fs : FS) (tc r : String)
    (hejs : isEjsPath (q.drop t.length) = true)
    (hread : readFile fs q = some tc) (hr : render tc data = .ok r) :
    processFile render t d data q fs
      = (writeFile (d ++ computeOutputRel (q.drop t.length)) r
          (ensureDir (dirname (d ++ computeOutputRel (q.drop t.length))) fs),
         none) := by
  unfold processFile renderTemplateFile
  simp only [hejs, if_true, hread, hr]

theorem processFile_eq_static (render : RenderFn) (t d : Path) (data : Data)
    (q : Path) (fs : FS) (tc : String)
    (hejs : isEjsPath (q.drop t.length) = false)
    (hread : readFile fs q = some tc) :
    processFile render t d data q fs
      = (writeFile (d ++ computeOutputRel (q.drop t.length)) tc
          (ensureDir (dirname (d ++ computeOutputRel (q.drop t.length))) fs),
         none) := by
  unfold processFile
  simp only [hejs, Bool.false_eq_true, if_false, hread]

/-! ## Helper lemma: the rendering loop is location-independent -/

/-- Running the same file list with the same renderer and data into two
output directories, starting from states that agree on the template
files and have equal (and in use, empty) relative output trees, fails
identically or produces equal relative output trees. -/
theorem processFiles_det (render : RenderFn) (t : Path) (data : Data)
    (d1 d2 : Path) :
    ∀ (files : List Path) (fs1 fs2 : FS),
      (∀ q ∈ files, readFile fs1 q = readFile fs2 q) →
      (∀ q ∈ files, isUnder d1 q = false) →
      (∀ q ∈ files, isUnder d2 q = false) →
      relTree d1 fs1 = relTree d2 fs2 →
      (processFiles render t d1 data files fs1).2
          = (processFiles render t d2 data files fs2).2 ∧
        relTree d1 (processFiles render t d1 data files fs1).1
          = relTree d2 (processFiles render t d2 data files fs2).1
  | [], fs1, fs2, _, _, _, hrel => ⟨rfl, hrel⟩
  | q :: rest, fs1, fs2, hread, h1, h2, hrel => by
    have hq : q ∈ q :: rest := List.mem_cons_self q rest
    have hreadq := hread q hq
    have h1q := h1 q hq
    have h2q := h2 q hq
    unfold processFiles
    rcases hval : readFile fs1 q with _ | tc
    · have hval2 : readFile fs2 q = none := by rw [← hreadq, hval]
      rw [processFile_eq_none render t d1 data q fs1 hval,
        processFile_eq_none render t d2 data q fs2 hval2]
      exact ⟨rfl, hrel⟩
    · have hval2 : readFile fs2 q = some tc := by rw [← hreadq, hval]
      have hnext :
          ∀ (out : Path) (c : String),
            relTree d1 (writeFile (d1 ++ out) c
                (ensureDir (dirname (d1 ++ out)) fs1))
              = relTree d2 (writeFile (d2 ++ out) c
                (ensureDir (dirname (d2 ++ out)) fs2)) := by
        intro out c
        rw [relTree_writeFile, relTree_writeFile, relTree_ensureDir,
          relTree_ensureDir, hrel]
      have hreadnext :
          ∀ (out : Path) (c : String) (p : Path), p ∈ rest →
            readFile (writeFile (d1 ++ out) c
                (ensureDir (dirname (d1 ++ out)) fs1)) p
              = readFile (writeFile (d2 ++ out) c
                (ensureDir (dirname (d2 ++ out)) fs2)) p := by
        intro out c p hp
        have hp1 : p ≠ d1 ++ out := fun hx => by
          have := h1 p (List.mem_cons_of_mem q hp)
          rw [hx, isUnder_append] at this
          cases this
        have hp2 : p ≠ d2 ++ out := fun hx => by
          have := h2 p (List.mem_cons_of_mem q hp)
          rw [hx, isUnder_append] at this
          cases this
        rw [readFile_writeFile_ne _ _ _ _ hp1, readFile_ensureDir,
          readFile_writeFile_ne _ _ _ _ hp2, readFile_ensureDir]
        exact hread p (List.mem_cons_of_mem q hp)
      by_cases hejs : isEjsPath (q.drop t.length) = true
      · rcases hr : render tc data with msg | r
        · rw [processFile_eq_ejs_err render t d1 data q fs1 tc msg hejs hval hr,
            processFile_eq_ejs_err render t d2 data q fs2 tc msg hejs hval2 hr]
          exact ⟨rfl, hrel⟩
        · rw [processFile_eq_ejs_ok render t d1 data q fs1 tc r hejs hval hr,
            processFile_eq_ejs_ok render t d2 data q fs2 tc r hejs hval2 hr]
          simp only []
          exact processFiles_det render t data d1 d2 rest _ _
            (hreadnext _ r)
            (fun p hp => h1 p (List.mem_cons_of_mem q hp))
            (fun p hp => h2 p (List.mem_cons_of_mem q hp))
            (hnext _ r)
      · have hejs2 : isEjsPath (q.drop t.length) = false := by
          simpa using hejs
        rw [processFile_eq_static render t d1 data q fs1 tc hejs2 hval,
          processFile_eq_static render t d2 data q fs2 tc hejs2 hval2]
        simp only []
        exact processFiles_det render t data d1 d2 rest _ _
          (hreadnext _ tc)
          (fun p hp => h1 p (List.mem_cons_of_mem q hp))
          (fun p hp => h2 p (List.mem_cons_of_mem q hp))
          (hnext _ tc)

/-! ## Claim theorem: rendering determinism (C6) -/

/-- C6: rendering the same template directory with the same data
context into two fresh (file-free) output directories either fails
identically or produces byte-identical relative output trees — the
same set of relative paths with the same content at each, in the same
order. -/
theorem copyAndRenderDir_idempotent_spec (render : RenderFn)
    (t d1 d2 : Path) (data : Data) (fs : FS)
    (h1 : ∀ f ∈ fs.files, isUnder d1 f.1 = false)
    (h2 : ∀ f ∈ fs.files, isUnder d2 f.1 = false) :
    (copyAndRenderDir render t d1 data fs).2
        = (copyAndRenderDir render t d2 data fs).2 ∧
      relTree d1 (copyAndRenderDir render t d1 data fs).1
        = relTree d2 (copyAndRenderDir render t d2 data fs).1 := by
  have hniltree : relTree d1 fs = relTree d2 fs := by
    rw [relTree_eq_nil d1 fs h1, relTree_eq_nil d2 fs h2]
  unfold copyAndRenderDir
  by_cases hpe : pathExists fs t = true
  · rw [if_pos hpe, if_pos hpe]
    refine processFiles_det render t data d1 d2 (getAllFiles fs t) fs fs
      (fun q _ => rfl) ?_ ?_ hniltree
    · intro q hq
      unfold getAllFiles at hq
      obtain ⟨hmem, -⟩ := List.mem_filter.mp hq
      obtain ⟨f, hf, rfl⟩ := List.mem_map.mp hmem
      exact h1 f hf
    · intro q hq
      unfold getAllFiles at hq
      obtain ⟨hmem, -⟩ := List.mem_filter.mp hq
      obtain ⟨f, hf, rfl⟩ := List.mem_map.mp hmem
      exact h2 f hf
  · rw [if_neg hpe, if_neg hpe]
    exact ⟨rfl, hniltree⟩

/-- C6 witness: one template tree rendered into the two fresh
directories `out-a` and `out-b` succeeds both times with identical
relative trees. -/
theorem copyAndRenderDir_idempotent_spec_witness :
    (copyAndRenderDir (fun t _ => .ok t) ["t"] ["out-a"]
        (Data.frontendCtx "app" "css" false)
        ⟨[["t"]], [(["t", "a.txt"], "A"), (["t", "sub", "b.ejs"], "B")]⟩).2
      = (copyAndRenderDir (fun t _ => .ok t) ["t"] ["out-b"]
        (Data.frontendCtx "app" "css" false)
        ⟨[["t"]], [(["t", "a.txt"], "A"), (["t", "sub", "b.ejs"], "B")]⟩).2 ∧
    relTree ["out-a"] (copyAndRenderDir (fun t _ => .ok t) ["t"] ["out-a"]
        (Data.frontendCtx "app" "css" false)
        ⟨[["t"]], [(["t", "a.txt"], "A"), (["t", "sub", "b.ejs"], "B")]⟩).1
      = relTree ["out-b"] (copyAndRenderDir (fun t _ => .ok t) ["t"] ["out-b"]
        (Data.frontendCtx "app" "css" false)
        ⟨[["t"]], [(["t", "a.txt"], "A"), (["t", "sub", "b.ejs"], "B")]⟩).1 :=
  copyAndRenderDir_idempotent_spec (fun t _ => .ok t) ["t"] ["out-a"]
    ["out-b"] (Data.frontendCtx "app" "css" false)
    ⟨[["t"]], [(["t", "a.txt"], "A"), (["t", "sub", "b.ejs"], "B")]⟩
    (by decide) (by decide)

end Boiling
